import Mathlib

/-!
Verification of the konfig3pr assemblers.

The repository contains two front-ends:
  * `src/assembler.py`   — class `UVBMAssembler`: lines of the form
    `MNEMONIC, arg, arg(, arg)` are split on commas, parsed into IR dicts
    `{A, B, C, D}`, and encoded into fixed 11-byte records.
  * `src/assembler1.py`  — function-style front-end: lines of the form
    `MNEMONIC arg, arg(, arg)` (comments `;`/`#`), producing IR dicts,
    no binary encoding stage.

This file embeds both front-ends (strings as `List Char`, Python `int`
parsing modelled explicitly, exceptions as `Except`), plus the address
allocator described by the specification (absent from `src/`), and proves
or refutes the frozen claims about them.
-/

namespace Py

/-- Characters stripped by Python's `str.strip()` and by `int()` (ASCII part). -/
def pySpace (c : Char) : Bool :=
  c = ' ' || c = '\t' || c = '\n' || c = '\r' || c = '\x0b' || c = '\x0c'

/-- The character list of a string literal. -/
def chars (s : String) : List Char := s.data

/-- Python `str.strip()`: drop leading and trailing whitespace. -/
def pyStrip (l : List Char) : List Char :=
  ((l.dropWhile pySpace).reverse.dropWhile pySpace).reverse

/-- Python `str.split(',')`: split on every comma, keeping empty chunks. -/
def splitOnComma : List Char → List (List Char)
  | [] => [[]]
  | c :: rest =>
    if c = ',' then [] :: splitOnComma rest
    else
      match splitOnComma rest with
      | [] => [[c]]
      | x :: xs => (c :: x) :: xs

/-- Python `str.upper()` (ASCII). -/
def toUpperL (l : List Char) : List Char := l.map Char.toUpper

/-- Python `str.lower()` (ASCII). -/
def toLowerL (l : List Char) : List Char := l.map Char.toLower

/-- Value of a decimal digit character (code 48 is `0`). -/
def decDigit (c : Char) : Option Nat :=
  if c.isDigit then some (c.toNat - 48) else none

/-- Value of a hexadecimal digit character: codes 97–102 are `a`–`f` and
65–70 are `A`–`F`, whose values start at 10. -/
def hexDigit (c : Char) : Option Nat :=
  let n := c.toNat
  if c.isDigit then some (n - 48)
  else if 97 ≤ n && n ≤ 102 then some (n - 87)
  else if 65 ≤ n && n ≤ 70 then some (n - 55)
  else none

/-- Digit-run parser after the first digit: Python `int()` allows a single
underscore between two digits (PEP 515), never doubled or trailing. -/
def parseDigitsAux (dv : Char → Option Nat) (base : Nat) : Nat → List Char → Option Nat
  | acc, [] => some acc
  | acc, '_' :: rest =>
    match rest with
    | [] => none
    | c :: rest' =>
      match dv c with
      | some d => parseDigitsAux dv base (acc * base + d) rest'
      | none => none
  | acc, c :: rest =>
    match dv c with
    | some d => parseDigitsAux dv base (acc * base + d) rest
    | none => none

/-- Digit run: at least one digit, underscores only between digits. -/
def parseDigits (dv : Char → Option Nat) (base : Nat) : List Char → Option Nat
  | [] => none
  | c :: rest =>
    match dv c with
    | some d => parseDigitsAux dv base d rest
    | none => none

/-- Unsigned body of Python `int(s, 10)`. -/
def pyUnsigned10 (u : List Char) : Option Nat := parseDigits decDigit 10 u

/-- Unsigned body of Python `int(s, 16)`: optional `0x`/`0X` prefix, a single
underscore allowed directly after the prefix. -/
def pyUnsigned16 (u : List Char) : Option Nat :=
  if (toLowerL u).take 2 = chars "0x" then
    let body := u.drop 2
    if body.head? = some '_' then parseDigits hexDigit 16 body.tail
    else parseDigits hexDigit 16 body
  else parseDigits hexDigit 16 u

/-- Optional sign in front of the unsigned body. -/
def pyIntCore (uns : List Char → Option Nat) (t : List Char) : Option Int :=
  if t.head? = some '+' then (uns t.tail).map (fun n => (n : Int))
  else if t.head? = some '-' then (uns t.tail).map (fun n => -(n : Int))
  else (uns t).map (fun n => (n : Int))

/-- Python `int(s, 10)` on a character list. -/
def pyInt10 (s : List Char) : Option Int := pyIntCore pyUnsigned10 (pyStrip s)

/-- Python `int(s, 16)` on a character list. -/
def pyInt16 (s : List Char) : Option Int := pyIntCore pyUnsigned16 (pyStrip s)

/-- Python `str.splitlines()` restricted to `\n` separators. -/
def splitlinesAux : List Char → List Char → List (List Char)
  | acc, [] => if acc = [] then [] else [acc.reverse]
  | acc, c :: rest =>
    if c = '\n' then acc.reverse :: splitlinesAux [] rest
    else splitlinesAux (c :: acc) rest

/-- Split a source text into lines. -/
def splitlines (t : List Char) : List (List Char) := splitlinesAux [] t

end Py

namespace UVBM

open Py

/-- IR record of `assembler.py`: dict `{'A': .., 'B': .., 'C': .., 'D': ..}`
with `D = None` modelled as `none`. -/
structure Instr where
  A : Int
  B : Int
  C : Int
  D : Option Int
deriving DecidableEq, Repr

/-- `UVBMAssembler._load_const`: `LOAD_CONST, <addr_dest>, <const>`. -/
def load_const (parts : List (List Char)) : Except String Instr :=
  match parts with
  | [_, p1, p2] =>
    match pyInt10 p1 with
    | none => .error "invalid literal for int"
    | some dest =>
      match pyInt10 p2 with
      | none => .error "invalid literal for int"
      | some cv => .ok ⟨3, cv, dest, none⟩
  | _ => .error "LOAD_CONST expects 2 arguments"

/-- `UVBMAssembler._read_mem`: `READ_MEM, <addr_dest>, <addr_src>`. -/
def read_mem (parts : List (List Char)) : Except String Instr :=
  match parts with
  | [_, p1, p2] =>
    match pyInt10 p1 with
    | none => .error "invalid literal for int"
    | some dest =>
      match pyInt10 p2 with
      | none => .error "invalid literal for int"
      | some src => .ok ⟨0, src, dest, none⟩
  | _ => .error "READ_MEM expects 2 arguments"

/-- `UVBMAssembler._write_mem`: `WRITE_MEM, <addr_src>, <addr_dest>`. -/
def write_mem (parts : List (List Char)) : Except String Instr :=
  match parts with
  | [_, p1, p2] =>
    match pyInt10 p1 with
    | none => .error "invalid literal for int"
    | some src =>
      match pyInt10 p2 with
      | none => .error "invalid literal for int"
      | some dest => .ok ⟨5, src, dest, none⟩
  | _ => .error "WRITE_MEM expects 2 arguments"

/-- `UVBMAssembler._min_op`: `MIN, <addr_result>, <addr_op1>, <addr_op2>`. -/
def min_op (parts : List (List Char)) : Except String Instr :=
  match parts with
  | [_, p1, p2, p3] =>
    match pyInt10 p1 with
    | none => .error "invalid literal for int"
    | some res =>
      match pyInt10 p2 with
      | none => .error "invalid literal for int"
      | some o1 =>
        match pyInt10 p3 with
        | none => .error "invalid literal for int"
        | some o2 => .ok ⟨7, o1, o2, some res⟩
  | _ => .error "MIN expects 3 arguments"

/-- `UVBMAssembler.parse_line`: strip, skip empty lines and lines starting
with `;`, split the whole line on commas, dispatch on the first chunk. -/
def parse_line (line : List Char) : Except String (Option Instr) :=
  let l := pyStrip line
  if l = [] then .ok none
  else if l.head? = some ';' then .ok none
  else
    let parts := splitOnComma l
    let cmd := toUpperL (pyStrip parts.headI)
    if cmd = chars "LOAD_CONST" then (load_const parts).map some
    else if cmd = chars "READ_MEM" then (read_mem parts).map some
    else if cmd = chars "WRITE_MEM" then (write_mem parts).map some
    else if cmd = chars "MIN" then (min_op parts).map some
    else .error "Unknown command"

/-- The parse loop of `UVBMAssembler.assemble`: lines are numbered from 1,
successfully parsed instructions are appended to the accumulator, and the
first exception aborts the whole run with its line number. -/
def assembleIRFrom (acc : List Instr) (i : Nat) : List (List Char) → Except (Nat × String) (List Instr)
  | [] => .ok acc
  | l :: rest =>
    match parse_line l with
    | .error e => .error (i, e)
    | .ok none => assembleIRFrom acc (i + 1) rest
    | .ok (some ins) => assembleIRFrom (acc ++ [ins]) (i + 1) rest

/-- `UVBMAssembler.assemble`, parse phase: `self.ir.clear()` then the line
loop, so the previous contents of `self.ir` are discarded. -/
def assembleMethod (ir0 : List Instr) (text : List Char) : Except (Nat × String) (List Instr) :=
  let cleared : List Instr := []
  assembleIRFrom cleared 1 (splitlines text)

/-- The full parse phase started from a fresh assembler. -/
def assembleProgram (text : List Char) : Except (Nat × String) (List Instr) :=
  assembleMethod [] text

/-- `struct.pack('<I', v)`: four little-endian bytes, raising
(`none`) when the value does not fit an unsigned 32-bit integer. -/
def pack32 (v : Int) : Option (List Nat) :=
  if 0 ≤ v ∧ v < 4294967296 then
    some [v.toNat % 256, v.toNat / 256 % 256, v.toNat / 65536 % 256, v.toNat / 16777216 % 256]
  else none

/-- `struct.pack('<H', v)`: two little-endian bytes, raising (`none`) when
the value does not fit an unsigned 16-bit integer. -/
def pack16 (v : Int) : Option (List Nat) :=
  if 0 ≤ v ∧ v < 65536 then some [v.toNat % 256, v.toNat / 256 % 256]
  else none

/-- Encoding of one IR record in `UVBMAssembler.assemble`: byte 0 is
`A & 0x07`, then `B` and `C` as `<I`, then `D` (or 0 when `None`) as `<H`. -/
def encodeInstr (c : Instr) : Option (List Nat) :=
  match pack32 c.B with
  | none => none
  | some b =>
    match pack32 c.C with
    | none => none
    | some cBytes =>
      match pack16 (c.D.getD 0) with
      | none => none
      | some d => some ((c.A.emod 8).toNat :: (b ++ cBytes ++ d))

/-- The encoding loop: records are written in IR order. -/
def encode : List Instr → Option (List Nat)
  | [] => some []
  | c :: rest =>
    match encodeInstr c with
    | none => none
    | some r =>
      match encode rest with
      | none => none
      | some rs => some (r ++ rs)

/-- Parse phase followed by the encoding loop, from a given `self.ir` state. -/
def compileMethod (ir0 : List Instr) (text : List Char) : Except (Nat × String) (Option (List Nat)) :=
  (assembleMethod ir0 text).map encode

/-- Full pipeline from a fresh assembler. -/
def compileToBytes (text : List Char) : Except (Nat × String) (Option (List Nat)) :=
  compileMethod [] text

/-- The 11-byte record layout stated by the specification: opcode masked to
its low 3 bits, `B` and `C` as unsigned 32-bit little-endian, `D` (0 when
absent) as unsigned 16-bit little-endian. -/
def record (c : Instr) : List Nat :=
  let b := c.B.toNat
  let cc := c.C.toNat
  let d := (c.D.getD 0).toNat
  [(c.A.emod 8).toNat,
   b % 256, b / 256 % 256, b / 65536 % 256, b / 16777216 % 256,
   cc % 256, cc / 256 % 256, cc / 65536 % 256, cc / 16777216 % 256,
   d % 256, d / 256 % 256]

/-- All fields of a record fit the widths fixed by the wire format. -/
def InRange (c : Instr) : Prop :=
  0 ≤ c.B ∧ c.B < 4294967296 ∧ 0 ≤ c.C ∧ c.C < 4294967296 ∧
    0 ≤ c.D.getD 0 ∧ c.D.getD 0 < 65536

instance (c : Instr) : Decidable (InRange c) := by
  unfold InRange; infer_instance

end UVBM

namespace Asm1

open Py

/-- IR record of `assembler1.py`: dict with keys `mnemonic`, `A`, `B`, `C`
and, for MIN only, `D`; absence of the `D` key is modelled as `none`. -/
structure Instr1 where
  mnemonic : List Char
  A : Int
  B : Int
  C : Int
  D : Option Int
deriving DecidableEq, Repr

/-- The `MNEMONICS` dict: mnemonic string to opcode value `A`. -/
def mnemonicValue (s : List Char) : Option Int :=
  if s = chars "LOAD_CONST" then some 3
  else if s = chars "READ" then some 0
  else if s = chars "WRITE" then some 5
  else if s = chars "MIN" then some 7
  else none

/-- Comment removal in `assemble_line`: the prefix of the line before the
first `;` or `#`. -/
def stripComment (l : List Char) : List Char :=
  l.takeWhile (fun c => !(c == ';') && !(c == '#'))

/-- First character class of the `_token_re` mnemonic group: `[A-Za-z_]`. -/
def identStart (c : Char) : Bool := c.isAlpha || c == '_'

/-- Later character class of the `_token_re` mnemonic group: `[A-Za-z0-9_]`. -/
def identChar (c : Char) : Bool := c.isAlphanum || c == '_'

/-- `_token_re.match`: skip spaces, take a maximal identifier as the
mnemonic, skip spaces, the remainder is the `rest` group. -/
def matchToken (code : List Char) : Option (List Char × List Char) :=
  let c0 := code.dropWhile pySpace
  match c0.head? with
  | none => none
  | some c =>
    if identStart c then
      some (c0.takeWhile identChar, (c0.dropWhile identChar).dropWhile pySpace)
    else none

/-- `parse_number`: strip, reject empty, base 16 when the token starts with
`0x`/`0X`, base 10 otherwise. -/
def parse_number (tok : List Char) : Except String Int :=
  let t := pyStrip tok
  if t = [] then .error "Empty numeric token"
  else if (toLowerL t).take 2 = chars "0x" then
    match pyInt16 t with
    | some v => .ok v
    | none => .error "invalid literal for int with base 16"
  else
    match pyInt10 t with
    | some v => .ok v
    | none => .error "invalid literal for int with base 10"

/-- `tokenize_operands`: split on commas, strip each part, drop empties. -/
def tokenize_operands (s : List Char) : List (List Char) :=
  ((splitOnComma s).map pyStrip).filter (fun p => !p.isEmpty)

/-- `assemble_line`: strip comments and whitespace, skip empty lines, match
the mnemonic token, dispatch on the mnemonic.  The Python fallback branch
that stores raw `operands` is unreachable because `MNEMONICS` holds exactly
the four dispatched mnemonics, so the trailing case here is MIN. -/
def assemble_line (line : List Char) (lineNo : Nat) : Except String (Option Instr1) :=
  let code := pyStrip (stripComment line)
  if code = [] then .ok none
  else
    match matchToken code with
    | none => .error ("Syntax error on line " ++ Nat.repr lineNo)
    | some (mn, rest0) =>
      let mnemonic := toUpperL mn
      let rest := pyStrip rest0
      match mnemonicValue mnemonic with
      | none => .error ("Unknown mnemonic on line " ++ Nat.repr lineNo)
      | some a =>
        let operands := if rest = [] then [] else tokenize_operands rest
        if mnemonic = chars "LOAD_CONST" then
          match operands with
          | [o1, o2] =>
            match parse_number o1 with
            | .error e => .error e
            | .ok v1 =>
              match parse_number o2 with
              | .error e => .error e
              | .ok v2 => .ok (some ⟨mnemonic, a, v1, v2, none⟩)
          | _ => .error ("LOAD_CONST expects 2 operands on line " ++ Nat.repr lineNo)
        else if mnemonic = chars "READ" then
          match operands with
          | [o1, o2] =>
            match parse_number o1 with
            | .error e => .error e
            | .ok v1 =>
              match parse_number o2 with
              | .error e => .error e
              | .ok v2 => .ok (some ⟨mnemonic, a, v1, v2, none⟩)
          | _ => .error ("READ expects 2 operands on line " ++ Nat.repr lineNo)
        else if mnemonic = chars "WRITE" then
          match operands with
          | [o1, o2] =>
            match parse_number o1 with
            | .error e => .error e
            | .ok v1 =>
              match parse_number o2 with
              | .error e => .error e
              | .ok v2 => .ok (some ⟨mnemonic, a, v1, v2, none⟩)
          | _ => .error ("WRITE expects 2 operands on line " ++ Nat.repr lineNo)
        else
          match operands with
          | [o1, o2, o3] =>
            match parse_number o1 with
            | .error e => .error e
            | .ok v1 =>
              match parse_number o2 with
              | .error e => .error e
              | .ok v2 =>
                match parse_number o3 with
                | .error e => .error e
                | .ok v3 => .ok (some ⟨mnemonic, a, v1, v2, some v3⟩)
          | _ => .error ("MIN expects 3 operands on line " ++ Nat.repr lineNo)

/-- The loop of `assemble_text`: lines numbered from 1, first raised error
aborts the whole run. -/
def assemble_textAux (i : Nat) : List (List Char) → Except String (List Instr1)
  | [] => .ok []
  | l :: rest =>
    match assemble_line l i with
    | .error e => .error e
    | .ok none => assemble_textAux (i + 1) rest
    | .ok (some ins) =>
      match assemble_textAux (i + 1) rest with
      | .error e => .error e
      | .ok irs => .ok (ins :: irs)

/-- `assemble_text`: whole program text to IR. -/
def assemble_text (text : List Char) : Except String (List Instr1) :=
  assemble_textAux 1 (splitlines text)

end Asm1

namespace Alloc

/-- Modelled from the spec: the Address Allocator of §4.2 has no
implementation under `src/` (only the specification describes it); its
state is the key-to-address table plus the next-free-address counter. -/
structure Allocator where
  table : List (String × Nat)
  counter : Nat
deriving DecidableEq, Repr

/-- Modelled from the spec: the allocator starts empty with base address 100. -/
def Allocator.init : Allocator := ⟨[], 100⟩

/-- Modelled from the spec: `allocate(key)` returns the key's address,
creating a new entry with the next free address when the key is unseen. -/
def allocate (a : Allocator) (k : String) : Nat × Allocator :=
  match a.table.lookup k with
  | some addr => (addr, a)
  | none => (a.counter, ⟨a.table ++ [(k, a.counter)], a.counter + 1⟩)

/-- Allocator states whose table entries all lie below the counter; holds
for `init` and is preserved by `allocate`. -/
def Allocator.Good (a : Allocator) : Prop :=
  ∀ p ∈ a.table, p.2 < a.counter

instance (a : Allocator) : Decidable a.Good := by
  unfold Allocator.Good; infer_instance

end Alloc

deriving instance DecidableEq for Except

section Helpers

open Py UVBM Asm1

/-- The ten decimal digit characters. -/
def digitChars : List Char := ['0', '1', '2', '3', '4', '5', '6', '7', '8', '9']

theorem except_map_some_eq_ok {ε α : Type} {x : Except ε α} {y : Option α}
    (h : x.map some = Except.ok y) : ∃ a, x = Except.ok a ∧ y = some a := by
  cases x with
  | error e => simp [Except.map] at h
  | ok a => refine ⟨a, rfl, ?_⟩; simpa [Except.map] using h.symm

theorem dropWhile_eq_self {p : Char → Bool} {l : List Char}
    (h : ∀ c ∈ l, p c = false) : l.dropWhile p = l := by
  cases l with
  | nil => rfl
  | cons a t => simp [List.dropWhile_cons, h a (by simp)]

theorem takeWhile_eq_self {p : Char → Bool} {l : List Char}
    (h : ∀ c ∈ l, p c = true) : l.takeWhile p = l := by
  induction l with
  | nil => rfl
  | cons a t ih =>
    have ha : p a = true := h a (by simp)
    have ht : List.takeWhile p t = t := ih fun c hc => h c (by simp [hc])
    simp [List.takeWhile_cons, ha, ht]

theorem pyStrip_eq_self {l : List Char} (h : ∀ c ∈ l, pySpace c = false) :
    pyStrip l = l := by
  unfold pyStrip
  rw [dropWhile_eq_self h, dropWhile_eq_self (fun c hc => h c (List.mem_reverse.mp hc)),
    List.reverse_reverse]

theorem splitOnComma_no_comma {xs : List Char} (h : ∀ c ∈ xs, c ≠ ',') :
    splitOnComma xs = [xs] := by
  induction xs with
  | nil => rfl
  | cons a t ih =>
    have ha : a ≠ ',' := h a (by simp)
    have ht := ih fun c hc => h c (by simp [hc])
    simp only [splitOnComma, if_neg ha, ht]

theorem splitOnComma_append {xs ys : List Char} (h : ∀ c ∈ xs, c ≠ ',') :
    splitOnComma (xs ++ ',' :: ys) = xs :: splitOnComma ys := by
  induction xs with
  | nil => simp [splitOnComma]
  | cons a t ih =>
    have ha : a ≠ ',' := h a (by simp)
    have ht := ih fun c hc => h c (by simp [hc])
    simp only [List.cons_append, splitOnComma, if_neg ha, List.append_eq, ht]

theorem digit_no_space {c : Char} (h : c ∈ digitChars) : pySpace c = false := by
  fin_cases h <;> decide

theorem digit_not_comma {c : Char} (h : c ∈ digitChars) : c ≠ ',' := by
  fin_cases h <;> decide

theorem digit_no_marker {c : Char} (h : c ∈ digitChars) :
    (!(c == ';') && !(c == '#')) = true := by
  fin_cases h <;> decide

theorem digit_toLower {c : Char} (h : c ∈ digitChars) : c.toLower = c := by
  fin_cases h <;> decide

theorem digit_identChar {c : Char} (h : c ∈ digitChars) : identChar c = true := by
  fin_cases h <;> decide

theorem digit_isDigit {c : Char} (h : c ∈ digitChars) : decDigit c ≠ none := by
  fin_cases h <;> decide

theorem digit_not_sign {c : Char} (h : c ∈ digitChars) : c ≠ '+' ∧ c ≠ '-' := by
  fin_cases h <;> decide

/-- An all-digit token has no `0x`/`0X` prefix. -/
theorem digits_no_hex_marker {ds : List Char} (hd : ∀ c ∈ ds, c ∈ digitChars) :
    (toLowerL ds).take 2 ≠ chars "0x" := by
  intro h
  have hx : 'x' ∈ (toLowerL ds).take 2 := by rw [h]; decide
  have hx2 : 'x' ∈ toLowerL ds := List.take_subset 2 (toLowerL ds) hx
  rcases List.mem_map.mp hx2 with ⟨c, hc, hcl⟩
  have := digit_toLower (hd c hc)
  rw [this] at hcl
  subst hcl
  exact absurd (hd 'x' hc) (by decide)

/-- An all-digit nonempty token parses under `int(_, 10)` to its digit value. -/
theorem pyInt10_digits {ds : List Char} {v : Nat}
    (hd : ∀ c ∈ ds, c ∈ digitChars) (hv : parseDigits decDigit 10 ds = some v) :
    pyInt10 ds = some (v : Int) := by
  have hne : ds ≠ [] := by rintro rfl; simp [parseDigits] at hv
  obtain ⟨c0, t, rfl⟩ : ∃ c0 t, ds = c0 :: t := by
    cases ds with
    | nil => exact absurd rfl hne
    | cons a t => exact ⟨a, t, rfl⟩
  have h0 := digit_not_sign (hd c0 (by simp))
  unfold pyInt10
  rw [pyStrip_eq_self fun c hc => digit_no_space (hd c hc)]
  unfold pyIntCore
  simp only [List.head?_cons]
  rw [if_neg (by simpa using h0.1), if_neg (by simpa using h0.2)]
  unfold pyUnsigned10
  rw [hv]
  rfl

end Helpers

section ShapeLemmas

open Py UVBM Asm1

theorem load_const_shape {parts : List (List Char)} {r : Instr}
    (h : load_const parts = .ok r) : r.A = 3 ∧ r.D = none := by
  unfold load_const at h
  repeat' split at h
  any_goals exact Except.noConfusion h
  all_goals (injection h with h; subst h; exact ⟨rfl, by simp⟩)

theorem read_mem_shape {parts : List (List Char)} {r : Instr}
    (h : read_mem parts = .ok r) : r.A = 0 ∧ r.D = none := by
  unfold read_mem at h
  repeat' split at h
  any_goals exact Except.noConfusion h
  all_goals (injection h with h; subst h; exact ⟨rfl, by simp⟩)

theorem write_mem_shape {parts : List (List Char)} {r : Instr}
    (h : write_mem parts = .ok r) : r.A = 5 ∧ r.D = none := by
  unfold write_mem at h
  repeat' split at h
  any_goals exact Except.noConfusion h
  all_goals (injection h with h; subst h; exact ⟨rfl, by simp⟩)

theorem min_op_shape {parts : List (List Char)} {r : Instr}
    (h : min_op parts = .ok r) : r.A = 7 ∧ r.D ≠ none := by
  unfold min_op at h
  repeat' split at h
  any_goals exact Except.noConfusion h
  all_goals (injection h with h; subst h; exact ⟨rfl, by simp⟩)

/-- Every instruction `UVBMAssembler.parse_line` accepts comes from one of
the four handlers, fixing its opcode and the presence of its `D` field. -/
theorem parse_line_shape {line : List Char} {r : Instr}
    (h : parse_line line = .ok (some r)) :
    (r.A = 3 ∧ r.D = none) ∨ (r.A = 0 ∧ r.D = none) ∨
      (r.A = 5 ∧ r.D = none) ∨ (r.A = 7 ∧ r.D ≠ none) := by
  simp only [parse_line] at h
  split_ifs at h <;>
    first
      | exact absurd h (by simp)
      | (obtain ⟨a, ha, haa⟩ := except_map_some_eq_ok h
         obtain rfl : a = r := (Option.some.injEq _ _ ▸ haa).symm
         first
           | exact Or.inl (load_const_shape ha)
           | exact Or.inr (Or.inl (read_mem_shape ha))
           | exact Or.inr (Or.inr (Or.inl (write_mem_shape ha)))
           | exact Or.inr (Or.inr (Or.inr (min_op_shape ha))))

/-- Every instruction `assemble_line` accepts carries one of the four
`MNEMONICS` opcodes, with `D` present exactly for MIN. -/
theorem assemble_line_shape {line : List Char} {n : Nat} {r : Instr1}
    (h : assemble_line line n = .ok (some r)) :
    (r.A = 3 ∧ r.D = none) ∨ (r.A = 0 ∧ r.D = none) ∨
      (r.A = 5 ∧ r.D = none) ∨ (r.A = 7 ∧ r.D ≠ none) := by
  simp only [assemble_line] at h
  repeat' split at h
  any_goals exact Except.noConfusion h
  all_goals injection h with h
  any_goals exact Option.noConfusion h
  all_goals (injection h with h; subst h)
  all_goals simp_all [mnemonicValue]

end ShapeLemmas

section EncoderLemmas

open Py UVBM

/-- Under the width constraints the encoder emits exactly the 11-byte
record layout stated by the specification. -/
theorem encodeInstr_eq_record {c : Instr} (h : InRange c) :
    encodeInstr c = some (record c) := by
  obtain ⟨hb0, hb1, hc0, hc1, hd0, hd1⟩ := h
  unfold encodeInstr pack32 pack16 record
  rw [if_pos ⟨hb0, hb1⟩, if_pos ⟨hc0, hc1⟩, if_pos ⟨hd0, hd1⟩]
  rfl

/-- A record whose bytes the encoder produced had all fields in range:
`struct.pack` never wraps or masks. -/
theorem encodeInstr_some_inRange {c : Instr} {bs : List Nat}
    (h : encodeInstr c = some bs) : InRange c := by
  unfold encodeInstr at h
  repeat' split at h
  all_goals simp_all [pack32, pack16, InRange]

/-- An out-of-range `B`, `C` or `D` makes the encoder raise. -/
theorem encodeInstr_overflow {c : Instr}
    (h : 4294967296 ≤ c.B ∨ 4294967296 ≤ c.C ∨ 65536 ≤ c.D.getD 0) :
    encodeInstr c = none := by
  cases hc : encodeInstr c with
  | none => rfl
  | some bs =>
    obtain ⟨_, h1, _, h2, _, h3⟩ := encodeInstr_some_inRange hc
    rcases h with h4 | h4 | h4 <;> omega

/-- The encoding loop concatenates per-record encodings in IR order. -/
theorem encode_eq_flatten_record {ir : List Instr} (h : ∀ c ∈ ir, InRange c) :
    encode ir = some ((ir.map record).flatten) := by
  induction ir with
  | nil => rfl
  | cons c rest ih =>
    simp only [encode, encodeInstr_eq_record (h c (by simp)),
      ih fun x hx => h x (by simp [hx]), List.map_cons, List.flatten_cons]

/-- Each 11-byte record really has 11 bytes. -/
theorem record_length (c : Instr) : (record c).length = 11 := rfl

end EncoderLemmas

section ErrorLemmas

open Py UVBM Asm1

/-- The parse loop of `UVBMAssembler.assemble` stops at the first failing
line with that line's 1-based number and message. -/
theorem assembleIRFrom_first_error :
    ∀ (lines : List (List Char)) (acc : List Instr) (i j : Nat) (l : List Char) (e : String),
      lines[j]? = some l → parse_line l = .error e →
      (∀ k, k < j → ∀ l', lines[k]? = some l' → ∃ o, parse_line l' = .ok o) →
      assembleIRFrom acc i lines = .error (i + j, e) := by
  intro lines
  induction lines with
  | nil => intro acc i j l e hj _ _; simp at hj
  | cons l0 rest ih =>
    intro acc i j l e hj he hok
    cases j with
    | zero =>
      simp only [List.getElem?_cons_zero, Option.some.injEq] at hj
      subst hj
      simp [assembleIRFrom, he]
    | succ j' =>
      obtain ⟨o, ho⟩ := hok 0 (Nat.succ_pos _) l0 (by simp)
      have harith : i + (j' + 1) = (i + 1) + j' := by omega
      rw [harith]
      cases o with
      | none =>
        simp only [assembleIRFrom, ho]
        exact ih acc (i + 1) j' l e (by simpa using hj) he
          fun k hk l' hl' => hok (k + 1) (by omega) l' (by simpa using hl')
      | some ins =>
        simp only [assembleIRFrom, ho]
        exact ih (acc ++ [ins]) (i + 1) j' l e (by simpa using hj) he
          fun k hk l' hl' => hok (k + 1) (by omega) l' (by simpa using hl')

/-- `assemble_text` stops at the first failing line, raising that line's
error. -/
theorem assemble_textAux_first_error :
    ∀ (lines : List (List Char)) (i j : Nat) (l : List Char) (e : String),
      lines[j]? = some l → assemble_line l (i + j) = .error e →
      (∀ k, k < j → ∀ l', lines[k]? = some l' → ∃ o, assemble_line l' (i + k) = .ok o) →
      assemble_textAux i lines = .error e := by
  intro lines
  induction lines with
  | nil => intro i j l e hj _ _; simp at hj
  | cons l0 rest ih =>
    intro i j l e hj he hok
    cases j with
    | zero =>
      simp only [List.getElem?_cons_zero, Option.some.injEq] at hj
      subst hj
      simp only [Nat.add_zero] at he
      simp [assemble_textAux, he]
    | succ j' =>
      obtain ⟨o, ho⟩ := hok 0 (Nat.succ_pos _) l0 (by simp)
      simp only [Nat.add_zero] at ho
      have harith : i + (j' + 1) = (i + 1) + j' := by omega
      rw [harith] at he
      have hrec :=
        ih (i + 1) j' l e (by simpa using hj) he
          fun k hk l' hl' => by
            have := hok (k + 1) (by omega) l' (by simpa using hl')
            simpa [Nat.add_assoc, Nat.add_comm 1 k] using this
      cases o with
      | none => simp only [assemble_textAux, ho]; exact hrec
      | some ins => simp only [assemble_textAux, ho, hrec]

end ErrorLemmas

section AllocLemmas

open Alloc

theorem lookup_append_self {l : List (String × Nat)} {k : String} {v : Nat}
    (h : l.lookup k = none) : (l ++ [(k, v)]).lookup k = some v := by
  induction l with
  | nil => simp [List.lookup]
  | cons p t ih =>
    cases p with
    | mk a b =>
      by_cases hk : (k == a) = true
      · simp [List.lookup, hk] at h
      · simp only [List.lookup, List.cons_append, hk] at h ⊢
        exact ih h

end AllocLemmas


section ResultHelpers

open Py UVBM Asm1

theorem flatten_record_length (ir : List Instr) :
    ((ir.map record).flatten).length = 11 * ir.length := by
  induction ir with
  | nil => rfl
  | cons c rest ih =>
    simp only [List.map_cons, List.flatten_cons, List.length_append, ih,
      record_length, List.length_cons]
    ring

theorem shape_D_iff {A : Int} {D : Option Int}
    (hs : (A = 3 ∧ D = none) ∨ (A = 0 ∧ D = none) ∨
      (A = 5 ∧ D = none) ∨ (A = 7 ∧ D ≠ none)) : D ≠ none ↔ A = 7 := by
  rcases hs with ⟨h1, h2⟩ | ⟨h1, h2⟩ | ⟨h1, h2⟩ | ⟨h1, h2⟩ <;> subst h1 <;>
    simp [h2]

end ResultHelpers

/-- C1: for every IR sequence whose field values fit the declared widths
(`B`,`C` unsigned 32-bit, `D` unsigned 16-bit — out-of-range values raise
instead, see C4), the binary encoder emits exactly one 11-byte record per
instruction, concatenated in IR order with no header, footer or length
prefix: byte 0 is the opcode masked to its low 3 bits, bytes 1–4 are `B`
as u32 LE, bytes 5–8 are `C` as u32 LE, bytes 9–10 are `D` (0 when absent)
as u16 LE; the total length is `11 × instruction count`. -/
theorem C1_encoder_record_format (ir : List UVBM.Instr)
    (h : ∀ c ∈ ir, UVBM.InRange c) :
    UVBM.encode ir = some ((ir.map UVBM.record).flatten) ∧
      ((ir.map UVBM.record).flatten).length = 11 * ir.length :=
  ⟨encode_eq_flatten_record h, flatten_record_length ir⟩

theorem C1_encoder_record_format_witness :
    UVBM.encode [⟨3, 5, 100, none⟩, ⟨7, 1, 2, some 3⟩] =
        some (([(⟨3, 5, 100, none⟩ : UVBM.Instr), ⟨7, 1, 2, some 3⟩].map UVBM.record).flatten) ∧
      ((([(⟨3, 5, 100, none⟩ : UVBM.Instr), ⟨7, 1, 2, some 3⟩]).map UVBM.record).flatten).length =
        11 * 2 :=
  C1_encoder_record_format [⟨3, 5, 100, none⟩, ⟨7, 1, 2, some 3⟩] (by decide)

/-- C2: both front-ends only ever produce the opcode values READ=0,
LOAD_CONST=3, WRITE=5, MIN=7 in the `A` field, and the `MNEMONICS` table of
`assembler1.py` maps exactly those names to those values. -/
theorem C2_opcode_values :
    (∀ (line : List Char) (r : UVBM.Instr), UVBM.parse_line line = .ok (some r) →
        r.A = 0 ∨ r.A = 3 ∨ r.A = 5 ∨ r.A = 7) ∧
    (∀ (line : List Char) (n : Nat) (r : Asm1.Instr1),
        Asm1.assemble_line line n = .ok (some r) →
        r.A = 0 ∨ r.A = 3 ∨ r.A = 5 ∨ r.A = 7) ∧
    Asm1.mnemonicValue (Py.chars "READ") = some 0 ∧
    Asm1.mnemonicValue (Py.chars "LOAD_CONST") = some 3 ∧
    Asm1.mnemonicValue (Py.chars "WRITE") = some 5 ∧
    Asm1.mnemonicValue (Py.chars "MIN") = some 7 := by
  refine ⟨?_, ?_, by decide, by decide, by decide, by decide⟩
  · intro line r h
    rcases parse_line_shape h with ⟨h1, _⟩ | ⟨h1, _⟩ | ⟨h1, _⟩ | ⟨h1, _⟩ <;> tauto
  · intro line n r h
    rcases assemble_line_shape h with ⟨h1, _⟩ | ⟨h1, _⟩ | ⟨h1, _⟩ | ⟨h1, _⟩ <;> tauto

theorem C2_opcode_values_witness :
    (⟨7, 2, 3, some 1⟩ : UVBM.Instr).A = 0 ∨ (⟨7, 2, 3, some 1⟩ : UVBM.Instr).A = 3 ∨
      (⟨7, 2, 3, some 1⟩ : UVBM.Instr).A = 5 ∨ (⟨7, 2, 3, some 1⟩ : UVBM.Instr).A = 7 :=
  C2_opcode_values.1 (Py.chars "MIN, 1, 2, 3") ⟨7, 2, 3, some 1⟩ (by decide)

/-- C3: in every IR record either front-end produces, the `D` field is
present exactly when the opcode is MIN (7); and a record with absent `D`
(and in-range fields) serializes with bytes 9 and 10 equal to 0. -/
theorem C3_D_present_iff_min :
    (∀ (line : List Char) (r : UVBM.Instr), UVBM.parse_line line = .ok (some r) →
        (r.D ≠ none ↔ r.A = 7)) ∧
    (∀ (line : List Char) (n : Nat) (r : Asm1.Instr1),
        Asm1.assemble_line line n = .ok (some r) → (r.D ≠ none ↔ r.A = 7)) ∧
    (∀ c : UVBM.Instr, c.D = none → UVBM.InRange c →
        UVBM.encodeInstr c = some (UVBM.record c) ∧
          (UVBM.record c).get? 9 = some 0 ∧ (UVBM.record c).get? 10 = some 0) := by
  refine ⟨?_, ?_, ?_⟩
  · intro line r h; exact shape_D_iff (parse_line_shape h)
  · intro line n r h; exact shape_D_iff (assemble_line_shape h)
  · intro c hD hr
    refine ⟨encodeInstr_eq_record hr, ?_, ?_⟩ <;> simp [UVBM.record, hD]

theorem C3_D_present_iff_min_witness :
    ((⟨7, 2, 3, some 1⟩ : UVBM.Instr).D ≠ none ↔ (⟨7, 2, 3, some 1⟩ : UVBM.Instr).A = 7) :=
  C3_D_present_iff_min.1 (Py.chars "MIN, 1, 2, 3") ⟨7, 2, 3, some 1⟩ (by decide)

/-- C4: a `B` or `C` exceeding 32 bits or a `D` exceeding 16 bits makes the
encoder raise (`struct.pack` rejects out-of-range values) instead of
emitting a truncated record, and any record it does emit had all fields in
range — it never silently wraps or masks `B`, `C` or `D`. -/
theorem C4_overflow_detected :
    (∀ c : UVBM.Instr,
        4294967296 ≤ c.B ∨ 4294967296 ≤ c.C ∨ 65536 ≤ c.D.getD 0 →
        UVBM.encodeInstr c = none) ∧
    (∀ (c : UVBM.Instr) (bs : List Nat), UVBM.encodeInstr c = some bs → UVBM.InRange c) :=
  ⟨fun _ h => encodeInstr_overflow h, fun _ _ h => encodeInstr_some_inRange h⟩

theorem C4_overflow_detected_witness :
    UVBM.encodeInstr ⟨3, 4294967296, 0, none⟩ = none :=
  C4_overflow_detected.1 ⟨3, 4294967296, 0, none⟩ (by decide)

/-- C5: compilation is all-or-nothing — when a line fails to parse and all
earlier lines parse, `UVBMAssembler.assemble` aborts with that line's
1-based number and message before the output file is opened (so no bytes
are written), and `assemble_text` likewise raises the first failing line's
error and returns no IR. -/
theorem C5_all_or_nothing :
    (∀ (text : List Char) (j : Nat) (l : List Char) (e : String),
        (Py.splitlines text)[j]? = some l → UVBM.parse_line l = .error e →
        (∀ k, k < j → ∀ l', (Py.splitlines text)[k]? = some l' →
          ∃ o, UVBM.parse_line l' = .ok o) →
        UVBM.assembleProgram text = .error (j + 1, e) ∧
          UVBM.compileToBytes text = .error (j + 1, e)) ∧
    (∀ (text : List Char) (j : Nat) (l : List Char) (e : String),
        (Py.splitlines text)[j]? = some l → Asm1.assemble_line l (j + 1) = .error e →
        (∀ k, k < j → ∀ l', (Py.splitlines text)[k]? = some l' →
          ∃ o, Asm1.assemble_line l' (k + 1) = .ok o) →
        Asm1.assemble_text text = .error e) := by
  constructor
  · intro text j l e hj he hok
    have h1 : UVBM.assembleIRFrom [] 1 (Py.splitlines text) = .error (1 + j, e) :=
      assembleIRFrom_first_error (Py.splitlines text) [] 1 j l e hj he hok
    have h2 : UVBM.assembleProgram text = .error (j + 1, e) := by
      unfold UVBM.assembleProgram UVBM.assembleMethod
      rw [h1, Nat.add_comm]
    refine ⟨h2, ?_⟩
    unfold UVBM.compileToBytes UVBM.compileMethod
    rw [show UVBM.assembleMethod [] text = UVBM.assembleProgram text from rfl, h2]
    rfl
  · intro text j l e hj he hok
    unfold Asm1.assemble_text
    refine assemble_textAux_first_error (Py.splitlines text) 1 j l e hj ?_ ?_
    · rw [Nat.add_comm]; exact he
    · intro k hk l' hl'
      rw [Nat.add_comm]
      exact hok k hk l' hl'

theorem C5_all_or_nothing_witness :
    UVBM.assembleProgram (Py.chars "LOAD_CONST, 1, 2\nfoo") = .error (2, "Unknown command") ∧
      UVBM.compileToBytes (Py.chars "LOAD_CONST, 1, 2\nfoo") = .error (2, "Unknown command") := by
  refine C5_all_or_nothing.1 (Py.chars "LOAD_CONST, 1, 2\nfoo") 1 (Py.chars "foo")
    "Unknown command" (by decide) (by decide) ?_
  intro k hk l' hl'
  have hk0 : k = 0 := by omega
  subst hk0
  have hc : (Py.splitlines (Py.chars "LOAD_CONST, 1, 2\nfoo"))[0]? =
      some (Py.chars "LOAD_CONST, 1, 2") := by decide
  rw [hc] at hl'
  obtain rfl : Py.chars "LOAD_CONST, 1, 2" = l' := by
    simpa using hl'
  exact ⟨some ⟨3, 2, 1, none⟩, by decide⟩

/-- C8: the address allocator (modelled from the spec, absent from `src/`)
starts at 100 with an empty table; an unseen key receives the current
counter value — strictly greater than every previously allocated address —
and the counter advances by 1; allocating the same key twice returns the
same address; and the table invariant is preserved. -/
theorem C8_allocator_monotone_memoized :
    Alloc.Allocator.init.counter = 100 ∧ Alloc.Allocator.init.table = [] ∧
    (∀ (a : Alloc.Allocator) (k : String), a.Good → a.table.lookup k = none →
        (Alloc.allocate a k).1 = a.counter ∧
        (Alloc.allocate a k).2.counter = a.counter + 1 ∧
        (∀ p ∈ a.table, p.2 < (Alloc.allocate a k).1)) ∧
    (∀ (a : Alloc.Allocator) (k : String),
        (Alloc.allocate (Alloc.allocate a k).2 k).1 = (Alloc.allocate a k).1) ∧
    (∀ (a : Alloc.Allocator) (k : String), a.Good → (Alloc.allocate a k).2.Good) := by
  refine ⟨rfl, rfl, ?_, ?_, ?_⟩
  · intro a k hg hl
    unfold Alloc.allocate
    rw [hl]
    exact ⟨rfl, rfl, fun p hp => hg p hp⟩
  · intro a k
    unfold Alloc.allocate
    cases hl : a.table.lookup k with
    | some addr => simp [hl]
    | none => simp [hl, lookup_append_self hl]
  · intro a k hg
    unfold Alloc.Allocator.Good at hg ⊢
    cases hl : a.table.lookup k with
    | some addr => simp only [Alloc.allocate, hl]; exact hg
    | none =>
      simp only [Alloc.allocate, hl]
      intro p hp
      simp only [List.mem_append, List.mem_singleton] at hp
      rcases hp with hp | hp
      · have := hg p hp; omega
      · subst hp; simp

theorem C8_allocator_monotone_memoized_witness :
    (Alloc.allocate Alloc.Allocator.init "x").1 = Alloc.Allocator.init.counter ∧
      (Alloc.allocate Alloc.Allocator.init "x").2.counter = Alloc.Allocator.init.counter + 1 ∧
      (∀ p ∈ Alloc.Allocator.init.table, p.2 < (Alloc.allocate Alloc.Allocator.init "x").1) :=
  C8_allocator_monotone_memoized.2.2.1 Alloc.Allocator.init "x" (by decide) (by decide)

/-- C9: compilation is deterministic — the parse phase clears `self.ir`
first, so starting from any two previous assembler states the same source
text yields identical IR and identical encoder output. -/
theorem C9_deterministic (s1 s2 : List UVBM.Instr) (text : List Char) :
    UVBM.assembleMethod s1 text = UVBM.assembleMethod s2 text ∧
      UVBM.compileMethod s1 text = UVBM.compileMethod s2 text :=
  ⟨rfl, rfl⟩

section C6Helpers

open Py UVBM Asm1

theorem map_some_ne_ok_none {x : Except String UVBM.Instr} :
    x.map some ≠ Except.ok none := by
  intro h
  cases x <;> simp [Except.map] at h

end C6Helpers

/-- C6 counterexample: for the line `"# hi"` the text left after removing
the `;`/`#` comment suffix and trimming is empty, so the claim predicts the
line is skipped with no error — yet `UVBMAssembler.parse_line` raises
`Unknown command` (it recognizes neither `#` comments nor mid-line comment
suffixes). -/
theorem C6_counterexample :
    Py.pyStrip (Asm1.stripComment (Py.chars "# hi")) = [] ∧
      UVBM.parse_line (Py.chars "# hi") = .error "Unknown command" :=
  ⟨by decide, by decide⟩

/-- C6 amended: `assemble_line` (assembler1.py) strips the suffix starting
at the first `;` or `#`, trims whitespace, and skips the line exactly when
the remainder is empty; `parse_line` (assembler.py) instead performs no
comment-suffix stripping — it trims whitespace and skips exactly when the
trimmed line is empty or starts with `;`. -/
theorem C6_comment_handling_amended :
    (∀ (line : List Char) (n : Nat),
        Asm1.assemble_line line n = .ok none ↔
          Py.pyStrip (Asm1.stripComment line) = []) ∧
    (∀ line : List Char,
        UVBM.parse_line line = .ok none ↔
          (Py.pyStrip line = [] ∨ (Py.pyStrip line).head? = some ';')) := by
  constructor
  · intro line n
    constructor
    · intro h
      by_contra hne
      simp only [Asm1.assemble_line] at h
      rw [if_neg hne] at h
      repeat' split at h
      all_goals simp_all
    · intro h
      simp [Asm1.assemble_line, h]
  · intro line
    constructor
    · intro h
      by_contra hne
      push_neg at hne
      simp only [UVBM.parse_line] at h
      rw [if_neg hne.1, if_neg hne.2] at h
      split_ifs at h
      all_goals first
        | exact map_some_ne_ok_none h
        | simp at h
    · intro h
      rcases h with h | h
      · simp [UVBM.parse_line, h]
      · have hne : Py.pyStrip line ≠ [] := by
          intro he
          rw [he] at h
          simp at h
        simp [UVBM.parse_line, hne, h]

theorem C6_comment_handling_amended_witness :
    Asm1.assemble_line (Py.chars "LOAD_CONST 1, 2 # set x") 1 ≠ Except.ok none := by
  have h := (C6_comment_handling_amended.1 (Py.chars "LOAD_CONST 1, 2 # set x") 1)
  intro hc
  exact absurd (h.mp hc) (by decide)

section NumberLemmas

open Py Asm1

theorem parseDigits_ne_nil {dv : Char → Option Nat} {base : Nat} {ds : List Char} {v : Nat}
    (hv : parseDigits dv base ds = some v) : ds ≠ [] := by
  rintro rfl
  simp [parseDigits] at hv

/-- A nonempty all-digit token is parsed by `parse_number` in base 10. -/
theorem parse_number_digits {ds : List Char} {v : Nat}
    (hd : ∀ c ∈ ds, c ∈ digitChars) (hv : parseDigits decDigit 10 ds = some v) :
    parse_number ds = .ok (v : Int) := by
  have hne : ds ≠ [] := parseDigits_ne_nil hv
  unfold parse_number
  rw [pyStrip_eq_self fun c hc => digit_no_space (hd c hc)]
  rw [if_neg hne, if_neg (digits_no_hex_marker hd)]
  rw [pyInt10_digits hd hv]

/-- A `-`-prefixed all-digit token is parsed by `parse_number` to the
negated value: Python's `int()` accepts signed literals. -/
theorem parse_number_neg_digits {ds : List Char} {v : Nat}
    (hd : ∀ c ∈ ds, c ∈ digitChars) (hv : parseDigits decDigit 10 ds = some v) :
    parse_number ('-' :: ds) = .ok (-(v : Int)) := by
  have hns : ∀ c ∈ ('-' :: ds), pySpace c = false := by
    intro c hc
    rcases List.mem_cons.mp hc with rfl | hc
    · decide
    · exact digit_no_space (hd c hc)
  have hhex : (toLowerL ('-' :: ds)).take 2 ≠ chars "0x" := by
    intro hEq
    have h0 : '-' ∈ Py.chars "0x" := by
      rw [← hEq]
      have : toLowerL ('-' :: ds) = '-' :: toLowerL ds := by simp [toLowerL]
      rw [this]
      cases h2 : (toLowerL ds).take 1 <;> simp [List.take]
    exact absurd h0 (by decide)
  have hcore : pyInt10 ('-' :: ds) = some (-(v : Int)) := by
    unfold pyInt10
    rw [pyStrip_eq_self hns]
    unfold pyIntCore
    simp only [List.head?_cons]
    rw [if_neg (by decide : ¬ (some '-' = some '+'))]
    simp only [if_true, List.tail_cons]
    unfold pyUnsigned10
    rw [hv]
    rfl
  unfold parse_number
  rw [pyStrip_eq_self hns]
  rw [if_neg (by simp), if_neg hhex, hcore]

end NumberLemmas

/-- C7 counterexample: the claim says underscore tokens are rejected and a
leading `-` fails, but Python's `int()` — and hence `parse_number` — accepts
both: `"1_0"` parses to 10 and `"-5"` parses to -5. -/
theorem C7_counterexample :
    Asm1.parse_number (Py.chars "1_0") = .ok 10 ∧
      Asm1.parse_number (Py.chars "-5") = .ok (-5) :=
  ⟨by decide, by decide⟩

/-- C7 amended: numeric tokens are parsed as hexadecimal only with an
explicit `0x`/`0X` prefix and as base-10 otherwise; however Python's
`int()` accepts an optional leading sign (a `-`-prefixed digit token
parses to the negated value) and single underscores between digits
(`"1_0"` is 10), while empty tokens, bare hex digits without the prefix,
and malformed underscore placements are rejected. -/
theorem C7_numeral_parsing_amended :
    (∀ (ds : List Char) (v : Nat), (∀ c ∈ ds, c ∈ digitChars) →
        Py.parseDigits Py.decDigit 10 ds = some v →
        Asm1.parse_number ds = .ok (v : Int) ∧
          Asm1.parse_number ('-' :: ds) = .ok (-(v : Int))) ∧
    Asm1.parse_number (Py.chars "0x1F") = .ok 31 ∧
    Asm1.parse_number (Py.chars "0X10") = .ok 16 ∧
    Asm1.parse_number (Py.chars "ff") = .error "invalid literal for int with base 10" ∧
    Asm1.parse_number (Py.chars "1_0") = .ok 10 ∧
    Asm1.parse_number (Py.chars "_5") = .error "invalid literal for int with base 10" ∧
    Asm1.parse_number (Py.chars "5_") = .error "invalid literal for int with base 10" ∧
    Asm1.parse_number (Py.chars "") = .error "Empty numeric token" := by
  refine ⟨?_, by decide, by decide, by decide, by decide, by decide, by decide, by decide⟩
  intro ds v hd hv
  exact ⟨parse_number_digits hd hv, parse_number_neg_digits hd hv⟩

theorem C7_numeral_parsing_amended_witness :
    Asm1.parse_number ['4', '2'] = .ok (42 : Int) ∧
      Asm1.parse_number ('-' :: ['4', '2']) = .ok (-(42 : Int)) :=
  C7_numeral_parsing_amended.1 ['4', '2'] 42 (by decide) (by decide)

section LineLemmas

open Py UVBM Asm1

theorem forall_mem_append_intro {P : Char → Prop} {xs ys : List Char}
    (hx : ∀ c ∈ xs, P c) (hy : ∀ c ∈ ys, P c) : ∀ c ∈ xs ++ ys, P c := by
  intro c hc
  rcases List.mem_append.mp hc with h | h
  exacts [hx c h, hy c h]

theorem forall_mem_cons_intro {P : Char → Prop} {x : Char} {ys : List Char}
    (hx : P x) (hy : ∀ c ∈ ys, P c) : ∀ c ∈ x :: ys, P c := by
  intro c hc
  rcases List.mem_cons.mp hc with rfl | h
  exacts [hx, hy c h]

theorem not_nil_isEmpty {l : List Char} (h : l ≠ []) : l.isEmpty = false := by
  cases l with
  | nil => exact absurd rfl h
  | cons a t => rfl

/-- `UVBMAssembler.parse_line` on a comma-form MIN line with all-digit
operands: parts[1] is the result address (field D), parts[2] and parts[3]
the operands (fields B and C). -/
theorem uvbm_min_line {ds1 ds2 ds3 : List Char} {v1 v2 v3 : Nat}
    (h1 : ∀ c ∈ ds1, c ∈ digitChars) (h2 : ∀ c ∈ ds2, c ∈ digitChars)
    (h3 : ∀ c ∈ ds3, c ∈ digitChars)
    (hv1 : parseDigits decDigit 10 ds1 = some v1)
    (hv2 : parseDigits decDigit 10 ds2 = some v2)
    (hv3 : parseDigits decDigit 10 ds3 = some v3) :
    parse_line (chars "MIN," ++ (ds1 ++ ',' :: (ds2 ++ ',' :: ds3))) =
      .ok (some ⟨7, (v2 : Int), (v3 : Int), some (v1 : Int)⟩) := by
  have hLc : chars "MIN," ++ (ds1 ++ ',' :: (ds2 ++ ',' :: ds3))
      = 'M' :: 'I' :: 'N' :: ',' :: (ds1 ++ ',' :: (ds2 ++ ',' :: ds3)) := rfl
  rw [hLc]
  have hns : ∀ c ∈ ('M' :: 'I' :: 'N' :: ',' :: (ds1 ++ ',' :: (ds2 ++ ',' :: ds3))),
      pySpace c = false :=
    forall_mem_cons_intro (by decide) (forall_mem_cons_intro (by decide)
      (forall_mem_cons_intro (by decide) (forall_mem_cons_intro (by decide)
        (forall_mem_append_intro (fun c hc => digit_no_space (h1 c hc))
          (forall_mem_cons_intro (by decide)
            (forall_mem_append_intro (fun c hc => digit_no_space (h2 c hc))
              (forall_mem_cons_intro (by decide)
                (fun c hc => digit_no_space (h3 c hc)))))))))
  have hsp : splitOnComma ('M' :: 'I' :: 'N' :: ',' :: (ds1 ++ ',' :: (ds2 ++ ',' :: ds3)))
      = [['M', 'I', 'N'], ds1, ds2, ds3] := by
    have e1 : ('M' :: 'I' :: 'N' :: ',' :: (ds1 ++ ',' :: (ds2 ++ ',' :: ds3)))
        = ['M', 'I', 'N'] ++ ',' :: (ds1 ++ ',' :: (ds2 ++ ',' :: ds3)) := rfl
    rw [e1, splitOnComma_append (by decide),
      splitOnComma_append (fun c hc => digit_not_comma (h1 c hc)),
      splitOnComma_append (fun c hc => digit_not_comma (h2 c hc)),
      splitOnComma_no_comma (fun c hc => digit_not_comma (h3 c hc))]
  simp only [parse_line]
  rw [pyStrip_eq_self hns]
  rw [if_neg (by simp : ¬('M' :: 'I' :: 'N' :: ',' :: (ds1 ++ ',' :: (ds2 ++ ',' :: ds3)) = []))]
  rw [if_neg (by simp :
    ¬(('M' :: 'I' :: 'N' :: ',' :: (ds1 ++ ',' :: (ds2 ++ ',' :: ds3))).head? = some ';'))]
  rw [hsp]
  rw [show List.headI [['M', 'I', 'N'], ds1, ds2, ds3] = ['M', 'I', 'N'] from rfl]
  rw [show toUpperL (pyStrip ['M', 'I', 'N']) = chars "MIN" from rfl]
  rw [if_neg (by decide), if_neg (by decide), if_neg (by decide), if_pos rfl]
  simp only [min_op, pyInt10_digits h1 hv1, pyInt10_digits h2 hv2, pyInt10_digits h3 hv3,
    Except.map]

end LineLemmas

section LineLemmas2

open Py UVBM Asm1

/-- `UVBMAssembler.parse_line` on a comma-form LOAD_CONST line with
all-digit operands: parts[1] is the destination address (field C),
parts[2] the constant (field B). -/
theorem uvbm_lc_line {ds1 ds2 : List Char} {v1 v2 : Nat}
    (h1 : ∀ c ∈ ds1, c ∈ digitChars) (h2 : ∀ c ∈ ds2, c ∈ digitChars)
    (hv1 : parseDigits decDigit 10 ds1 = some v1)
    (hv2 : parseDigits decDigit 10 ds2 = some v2) :
    parse_line (chars "LOAD_CONST," ++ (ds1 ++ ',' :: ds2)) =
      .ok (some ⟨3, (v2 : Int), (v1 : Int), none⟩) := by
  have hLc : chars "LOAD_CONST," ++ (ds1 ++ ',' :: ds2)
      = 'L' :: 'O' :: 'A' :: 'D' :: '_' :: 'C' :: 'O' :: 'N' :: 'S' :: 'T' :: ',' ::
        (ds1 ++ ',' :: ds2) := rfl
  rw [hLc]
  have hns : ∀ c ∈ ('L' :: 'O' :: 'A' :: 'D' :: '_' :: 'C' :: 'O' :: 'N' :: 'S' :: 'T' :: ',' ::
      (ds1 ++ ',' :: ds2)), pySpace c = false := by
    rw [← hLc]
    exact forall_mem_append_intro (by decide)
      (forall_mem_append_intro (fun c hc => digit_no_space (h1 c hc))
        (forall_mem_cons_intro (by decide) (fun c hc => digit_no_space (h2 c hc))))
  have hsp : splitOnComma ('L' :: 'O' :: 'A' :: 'D' :: '_' :: 'C' :: 'O' :: 'N' :: 'S' :: 'T' ::
      ',' :: (ds1 ++ ',' :: ds2))
      = [['L', 'O', 'A', 'D', '_', 'C', 'O', 'N', 'S', 'T'], ds1, ds2] := by
    have e1 : ('L' :: 'O' :: 'A' :: 'D' :: '_' :: 'C' :: 'O' :: 'N' :: 'S' :: 'T' :: ',' ::
        (ds1 ++ ',' :: ds2))
        = ['L', 'O', 'A', 'D', '_', 'C', 'O', 'N', 'S', 'T'] ++ ',' :: (ds1 ++ ',' :: ds2) := rfl
    rw [e1, splitOnComma_append (by decide),
      splitOnComma_append (fun c hc => digit_not_comma (h1 c hc)),
      splitOnComma_no_comma (fun c hc => digit_not_comma (h2 c hc))]
  simp only [parse_line]
  rw [pyStrip_eq_self hns]
  rw [if_neg (by simp : ¬('L' :: 'O' :: 'A' :: 'D' :: '_' :: 'C' :: 'O' :: 'N' :: 'S' :: 'T' ::
    ',' :: (ds1 ++ ',' :: ds2) = []))]
  rw [if_neg (by simp : ¬(('L' :: 'O' :: 'A' :: 'D' :: '_' :: 'C' :: 'O' :: 'N' :: 'S' :: 'T' ::
    ',' :: (ds1 ++ ',' :: ds2)).head? = some ';'))]
  rw [hsp]
  rw [show List.headI [['L', 'O', 'A', 'D', '_', 'C', 'O', 'N', 'S', 'T'], ds1, ds2]
    = ['L', 'O', 'A', 'D', '_', 'C', 'O', 'N', 'S', 'T'] from rfl]
  rw [show toUpperL (pyStrip ['L', 'O', 'A', 'D', '_', 'C', 'O', 'N', 'S', 'T'])
    = chars "LOAD_CONST" from rfl]
  rw [if_pos rfl]
  simp only [load_const, pyInt10_digits h1 hv1, pyInt10_digits h2 hv2, Except.map]

/-- `assemble_line` on the same comma-form MIN line: the leading comma
yields an empty chunk that `tokenize_operands` drops, and the operands map
to `B`, `C`, `D` in order. -/
theorem asm1_min_line {ds1 ds2 ds3 : List Char} {v1 v2 v3 : Nat} (n : Nat)
    (h1 : ∀ c ∈ ds1, c ∈ digitChars) (h2 : ∀ c ∈ ds2, c ∈ digitChars)
    (h3 : ∀ c ∈ ds3, c ∈ digitChars)
    (hv1 : parseDigits decDigit 10 ds1 = some v1)
    (hv2 : parseDigits decDigit 10 ds2 = some v2)
    (hv3 : parseDigits decDigit 10 ds3 = some v3) :
    assemble_line (chars "MIN," ++ (ds1 ++ ',' :: (ds2 ++ ',' :: ds3))) n =
      .ok (some ⟨chars "MIN", 7, (v1 : Int), (v2 : Int), some (v3 : Int)⟩) := by
  have hLc : chars "MIN," ++ (ds1 ++ ',' :: (ds2 ++ ',' :: ds3))
      = 'M' :: 'I' :: 'N' :: ',' :: (ds1 ++ ',' :: (ds2 ++ ',' :: ds3)) := rfl
  rw [hLc]
  have hns : ∀ c ∈ ('M' :: 'I' :: 'N' :: ',' :: (ds1 ++ ',' :: (ds2 ++ ',' :: ds3))),
      pySpace c = false := by
    rw [← hLc]
    exact forall_mem_append_intro (by decide)
      (forall_mem_append_intro (fun c hc => digit_no_space (h1 c hc))
        (forall_mem_cons_intro (by decide)
          (forall_mem_append_intro (fun c hc => digit_no_space (h2 c hc))
            (forall_mem_cons_intro (by decide) (fun c hc => digit_no_space (h3 c hc))))))
  have hmk : ∀ c ∈ ('M' :: 'I' :: 'N' :: ',' :: (ds1 ++ ',' :: (ds2 ++ ',' :: ds3))),
      (!(c == ';') && !(c == '#')) = true := by
    rw [← hLc]
    exact forall_mem_append_intro (by decide)
      (forall_mem_append_intro (fun c hc => digit_no_marker (h1 c hc))
        (forall_mem_cons_intro (by decide)
          (forall_mem_append_intro (fun c hc => digit_no_marker (h2 c hc))
            (forall_mem_cons_intro (by decide) (fun c hc => digit_no_marker (h3 c hc))))))
  have hns2 : ∀ c ∈ (',' :: (ds1 ++ ',' :: (ds2 ++ ',' :: ds3))), pySpace c = false :=
    forall_mem_cons_intro (by decide)
      (forall_mem_append_intro (fun c hc => digit_no_space (h1 c hc))
        (forall_mem_cons_intro (by decide)
          (forall_mem_append_intro (fun c hc => digit_no_space (h2 c hc))
            (forall_mem_cons_intro (by decide) (fun c hc => digit_no_space (h3 c hc))))))
  have hmark : stripComment ('M' :: 'I' :: 'N' :: ',' :: (ds1 ++ ',' :: (ds2 ++ ',' :: ds3)))
      = 'M' :: 'I' :: 'N' :: ',' :: (ds1 ++ ',' :: (ds2 ++ ',' :: ds3)) :=
    takeWhile_eq_self hmk
  have hstrip : pyStrip ('M' :: 'I' :: 'N' :: ',' :: (ds1 ++ ',' :: (ds2 ++ ',' :: ds3)))
      = 'M' :: 'I' :: 'N' :: ',' :: (ds1 ++ ',' :: (ds2 ++ ',' :: ds3)) :=
    pyStrip_eq_self hns
  have hstrip2 : pyStrip (',' :: (ds1 ++ ',' :: (ds2 ++ ',' :: ds3)))
      = ',' :: (ds1 ++ ',' :: (ds2 ++ ',' :: ds3)) :=
    pyStrip_eq_self hns2
  have hmt : matchToken ('M' :: 'I' :: 'N' :: ',' :: (ds1 ++ ',' :: (ds2 ++ ',' :: ds3)))
      = some (['M', 'I', 'N'], ',' :: (ds1 ++ ',' :: (ds2 ++ ',' :: ds3))) := by
    unfold matchToken
    rw [dropWhile_eq_self hns]
    rfl
  have hne1 : ds1 ≠ [] := parseDigits_ne_nil hv1
  have hne2 : ds2 ≠ [] := parseDigits_ne_nil hv2
  have hne3 : ds3 ≠ [] := parseDigits_ne_nil hv3
  have htok : tokenize_operands (',' :: (ds1 ++ ',' :: (ds2 ++ ',' :: ds3))) = [ds1, ds2, ds3] := by
    unfold tokenize_operands
    have hsc : splitOnComma (',' :: (ds1 ++ ',' :: (ds2 ++ ',' :: ds3)))
        = [[], ds1, ds2, ds3] := by
      have e0 : splitOnComma (',' :: (ds1 ++ ',' :: (ds2 ++ ',' :: ds3)))
          = [] :: splitOnComma (ds1 ++ ',' :: (ds2 ++ ',' :: ds3)) := by
        simp [splitOnComma]
      rw [e0, splitOnComma_append (fun c hc => digit_not_comma (h1 c hc)),
        splitOnComma_append (fun c hc => digit_not_comma (h2 c hc)),
        splitOnComma_no_comma (fun c hc => digit_not_comma (h3 c hc))]
    rw [hsc]
    simp only [List.map_cons, List.map_nil]
    rw [show pyStrip ([] : List Char) = [] from rfl,
      pyStrip_eq_self (fun c hc => digit_no_space (h1 c hc)),
      pyStrip_eq_self (fun c hc => digit_no_space (h2 c hc)),
      pyStrip_eq_self (fun c hc => digit_no_space (h3 c hc))]
    simp [List.filter, not_nil_isEmpty hne1, not_nil_isEmpty hne2, not_nil_isEmpty hne3]
  have hup : toUpperL ['M', 'I', 'N'] = chars "MIN" := rfl
  have hmv : mnemonicValue (chars "MIN") = some 7 := rfl
  simp only [assemble_line, hmark, hstrip, hmt, hup, hstrip2, hmv, htok]
  rw [if_neg (by decide : ¬(chars "MIN" = chars "LOAD_CONST")),
    if_neg (by decide : ¬(chars "MIN" = chars "READ")),
    if_neg (by decide : ¬(chars "MIN" = chars "WRITE"))]
  rw [if_neg (by simp : ¬('M' :: 'I' :: 'N' :: ',' :: (ds1 ++ ',' :: (ds2 ++ ',' :: ds3)) = [])),
    if_neg (by simp : ¬(',' :: (ds1 ++ ',' :: (ds2 ++ ',' :: ds3)) = []))]
  simp only [parse_number_digits h1 hv1, parse_number_digits h2 hv2,
    parse_number_digits h3 hv3]

/-- `assemble_line` on the same comma-form LOAD_CONST line: operands map to
`B` (constant position) and `C` (address position) in order. -/
theorem asm1_lc_line {ds1 ds2 : List Char} {v1 v2 : Nat} (n : Nat)
    (h1 : ∀ c ∈ ds1, c ∈ digitChars) (h2 : ∀ c ∈ ds2, c ∈ digitChars)
    (hv1 : parseDigits decDigit 10 ds1 = some v1)
    (hv2 : parseDigits decDigit 10 ds2 = some v2) :
    assemble_line (chars "LOAD_CONST," ++ (ds1 ++ ',' :: ds2)) n =
      .ok (some ⟨chars "LOAD_CONST", 3, (v1 : Int), (v2 : Int), none⟩) := by
  have hLc : chars "LOAD_CONST," ++ (ds1 ++ ',' :: ds2)
      = 'L' :: 'O' :: 'A' :: 'D' :: '_' :: 'C' :: 'O' :: 'N' :: 'S' :: 'T' :: ',' ::
        (ds1 ++ ',' :: ds2) := rfl
  rw [hLc]
  have hns : ∀ c ∈ ('L' :: 'O' :: 'A' :: 'D' :: '_' :: 'C' :: 'O' :: 'N' :: 'S' :: 'T' :: ',' ::
      (ds1 ++ ',' :: ds2)), pySpace c = false := by
    rw [← hLc]
    exact forall_mem_append_intro (by decide)
      (forall_mem_append_intro (fun c hc => digit_no_space (h1 c hc))
        (forall_mem_cons_intro (by decide) (fun c hc => digit_no_space (h2 c hc))))
  have hmk : ∀ c ∈ ('L' :: 'O' :: 'A' :: 'D' :: '_' :: 'C' :: 'O' :: 'N' :: 'S' :: 'T' :: ',' ::
      (ds1 ++ ',' :: ds2)), (!(c == ';') && !(c == '#')) = true := by
    rw [← hLc]
    exact forall_mem_append_intro (by decide)
      (forall_mem_append_intro (fun c hc => digit_no_marker (h1 c hc))
        (forall_mem_cons_intro (by decide) (fun c hc => digit_no_marker (h2 c hc))))
  have hns2 : ∀ c ∈ (',' :: (ds1 ++ ',' :: ds2)), pySpace c = false :=
    forall_mem_cons_intro (by decide)
      (forall_mem_append_intro (fun c hc => digit_no_space (h1 c hc))
        (forall_mem_cons_intro (by decide) (fun c hc => digit_no_space (h2 c hc))))
  have hmark : stripComment ('L' :: 'O' :: 'A' :: 'D' :: '_' :: 'C' :: 'O' :: 'N' :: 'S' :: 'T' ::
      ',' :: (ds1 ++ ',' :: ds2))
      = 'L' :: 'O' :: 'A' :: 'D' :: '_' :: 'C' :: 'O' :: 'N' :: 'S' :: 'T' :: ',' ::
        (ds1 ++ ',' :: ds2) :=
    takeWhile_eq_self hmk
  have hstrip : pyStrip ('L' :: 'O' :: 'A' :: 'D' :: '_' :: 'C' :: 'O' :: 'N' :: 'S' :: 'T' ::
      ',' :: (ds1 ++ ',' :: ds2))
      = 'L' :: 'O' :: 'A' :: 'D' :: '_' :: 'C' :: 'O' :: 'N' :: 'S' :: 'T' :: ',' ::
        (ds1 ++ ',' :: ds2) :=
    pyStrip_eq_self hns
  have hstrip2 : pyStrip (',' :: (ds1 ++ ',' :: ds2)) = ',' :: (ds1 ++ ',' :: ds2) :=
    pyStrip_eq_self hns2
  have hmt : matchToken ('L' :: 'O' :: 'A' :: 'D' :: '_' :: 'C' :: 'O' :: 'N' :: 'S' :: 'T' ::
      ',' :: (ds1 ++ ',' :: ds2))
      = some (['L', 'O', 'A', 'D', '_', 'C', 'O', 'N', 'S', 'T'], ',' :: (ds1 ++ ',' :: ds2)) := by
    unfold matchToken
    rw [dropWhile_eq_self hns]
    rfl
  have hne1 : ds1 ≠ [] := parseDigits_ne_nil hv1
  have hne2 : ds2 ≠ [] := parseDigits_ne_nil hv2
  have htok : tokenize_operands (',' :: (ds1 ++ ',' :: ds2)) = [ds1, ds2] := by
    unfold tokenize_operands
    have hsc : splitOnComma (',' :: (ds1 ++ ',' :: ds2)) = [[], ds1, ds2] := by
      have e0 : splitOnComma (',' :: (ds1 ++ ',' :: ds2))
          = [] :: splitOnComma (ds1 ++ ',' :: ds2) := by
        simp [splitOnComma]
      rw [e0, splitOnComma_append (fun c hc => digit_not_comma (h1 c hc)),
        splitOnComma_no_comma (fun c hc => digit_not_comma (h2 c hc))]
    rw [hsc]
    simp only [List.map_cons, List.map_nil]
    rw [show pyStrip ([] : List Char) = [] from rfl,
      pyStrip_eq_self (fun c hc => digit_no_space (h1 c hc)),
      pyStrip_eq_self (fun c hc => digit_no_space (h2 c hc))]
    simp [List.filter, not_nil_isEmpty hne1, not_nil_isEmpty hne2]
  have hup : toUpperL ['L', 'O', 'A', 'D', '_', 'C', 'O', 'N', 'S', 'T'] = chars "LOAD_CONST" := rfl
  have hmv : mnemonicValue (chars "LOAD_CONST") = some 3 := rfl
  simp only [assemble_line, hmark, hstrip, hmt, hup, hstrip2, hmv, htok]
  rw [if_neg (by simp :
    ¬('L' :: 'O' :: 'A' :: 'D' :: '_' :: 'C' :: 'O' :: 'N' :: 'S' :: 'T' :: ',' ::
      (ds1 ++ ',' :: ds2) = []))]
  simp only [if_true]
  rw [if_neg (by simp : ¬(',' :: (ds1 ++ ',' :: ds2) = []))]
  simp only [parse_number_digits h1 hv1, parse_number_digits h2 hv2]

end LineLemmas2

/-- C10 counterexample: the line `"MIN, 1, 2, 3"` is accepted by both
front-ends, but `parse_line` reads the first operand as the destination
(`B=2, C=3, D=1`) while `assemble_line` maps operands to `B`, `C`, `D` in
order (`B=1, C=2, D=3`): the records differ in the `B` field already. -/
theorem C10_counterexample :
    UVBM.parse_line (Py.chars "MIN, 1, 2, 3") = .ok (some ⟨7, 2, 3, some 1⟩) ∧
      Asm1.assemble_line (Py.chars "MIN, 1, 2, 3") 1 =
        .ok (some ⟨Py.chars "MIN", 7, 1, 2, some 3⟩) ∧
      (⟨7, 2, 3, some 1⟩ : UVBM.Instr).B ≠ (⟨Py.chars "MIN", 7, 1, 2, some 3⟩ : Asm1.Instr1).B :=
  ⟨by decide, by decide, by decide⟩

/-- C10 amended: on shared accepted lines (`MNEMONIC,op,op(,op)` with
mnemonic LOAD_CONST or MIN and digit operands) the two front-ends agree on
the opcode `A` but map operands to fields differently: `parse_line`
(assembler.py) takes the first operand as the destination — field `C` for
LOAD_CONST, field `D` for MIN — while `assemble_line` (assembler1.py)
assigns operands to `B`, `C` (and `D`) in order; the records therefore
coincide field-for-field only when the permuted operand values happen to
be equal. -/
theorem C10_front_ends_amended (ds1 ds2 ds3 : List Char) (v1 v2 v3 n : Nat)
    (h1 : ∀ c ∈ ds1, c ∈ digitChars) (h2 : ∀ c ∈ ds2, c ∈ digitChars)
    (h3 : ∀ c ∈ ds3, c ∈ digitChars)
    (hv1 : Py.parseDigits Py.decDigit 10 ds1 = some v1)
    (hv2 : Py.parseDigits Py.decDigit 10 ds2 = some v2)
    (hv3 : Py.parseDigits Py.decDigit 10 ds3 = some v3) :
    (UVBM.parse_line (Py.chars "MIN," ++ (ds1 ++ ',' :: (ds2 ++ ',' :: ds3))) =
        .ok (some ⟨7, (v2 : Int), (v3 : Int), some (v1 : Int)⟩) ∧
      Asm1.assemble_line (Py.chars "MIN," ++ (ds1 ++ ',' :: (ds2 ++ ',' :: ds3))) n =
        .ok (some ⟨Py.chars "MIN", 7, (v1 : Int), (v2 : Int), some (v3 : Int)⟩)) ∧
    (UVBM.parse_line (Py.chars "LOAD_CONST," ++ (ds1 ++ ',' :: ds2)) =
        .ok (some ⟨3, (v2 : Int), (v1 : Int), none⟩) ∧
      Asm1.assemble_line (Py.chars "LOAD_CONST," ++ (ds1 ++ ',' :: ds2)) n =
        .ok (some ⟨Py.chars "LOAD_CONST", 3, (v1 : Int), (v2 : Int), none⟩)) :=
  ⟨⟨uvbm_min_line h1 h2 h3 hv1 hv2 hv3, asm1_min_line n h1 h2 h3 hv1 hv2 hv3⟩,
   ⟨uvbm_lc_line h1 h2 hv1 hv2, asm1_lc_line n h1 h2 hv1 hv2⟩⟩

theorem C10_front_ends_amended_witness :
    (UVBM.parse_line (Py.chars "MIN," ++ (['1'] ++ ',' :: (['2'] ++ ',' :: ['3']))) =
        .ok (some ⟨7, (2 : Int), (3 : Int), some (1 : Int)⟩) ∧
      Asm1.assemble_line (Py.chars "MIN," ++ (['1'] ++ ',' :: (['2'] ++ ',' :: ['3']))) 1 =
        .ok (some ⟨Py.chars "MIN", 7, (1 : Int), (2 : Int), some (3 : Int)⟩)) ∧
    (UVBM.parse_line (Py.chars "LOAD_CONST," ++ (['1'] ++ ',' :: ['2'])) =
        .ok (some ⟨3, (2 : Int), (1 : Int), none⟩) ∧
      Asm1.assemble_line (Py.chars "LOAD_CONST," ++ (['1'] ++ ',' :: ['2'])) 1 =
        .ok (some ⟨Py.chars "LOAD_CONST", 3, (1 : Int), (2 : Int), none⟩)) :=
  C10_front_ends_amended ['1'] ['2'] ['3'] 1 2 3 1 (by decide) (by decide) (by decide)
    (by decide) (by decide) (by decide)
